import Mathlib

/-!
Verification of the beam explorer HTTP server (src/explorer/server.cpp).

This file shallowly embeds the data model and the operations of the explorer
server and proves/refutes the specification claims about them:

* the JSON document tree (`Json`) and the amount-expansion pass `jsonExp`
  (source: `jsonExp`, lines 506-553);
* the HTML converter (`HtmlConverter`, lines 116-503) including
  `SubstituteArg`, `Encode`, `get_ShortOf` and the special-tag dispatch;
* amount parsing (`HtmlConverter::ReadAmount`, lines 208-233);
* URL argument accessors (`get_UrlHexArg`, lines 675-694; `get_int_arg`
  modelled from the spec since `HttpUrl` lives outside this repository);
* the `hdrs` column-selector parsing (lines 717-789);
* the `blocks`/`contract` handlers' argument validation (lines 707-715,
  811-823);
* the request/response cycle `Server::on_request` (lines 556-666) and
  `Server::send` (lines 842-880);
* the IP access list (`Server::IPAccessControl`, lines 882-920) and the
  accept-time whitelist (`Server::on_stream_accepted`, lines 69-97).

External collaborators (the io reactor, the adapter backend, nlohmann-json
serialization, `AmountBig::Print`, `uintBig::ScanDecimal`/`_Scan`,
`HttpUrl`) are modelled from the spec where the claims need them; each such
definition carries a doc comment starting with `Modelled from the spec:`.
-/

set_option maxHeartbeats 1000000

namespace Explorer

/-- The structured document of the explorer (nlohmann json restricted to the
variants the server produces: null, boolean, integer numbers, strings,
arrays, ordered objects).  Objects are modelled as association lists in
iteration order with unique keys (std::map). -/
inductive Json where
  | null : Json
  | bool : Bool → Json
  | num : Int → Json
  | str : String → Json
  | arr : List Json → Json
  | obj : List (String × Json) → Json

/-- Model of `json::find` on an object: the value of the first field with the
given key. -/
def lookupJ : List (String × Json) → String → Option Json
  | [], _ => none
  | (k2, v) :: rest, k => if k2 = k then some v else lookupJ rest k

/-- In-place assignment through the iterator obtained by `find("value")`:
the "value" field's content is replaced (keys are unique in a std::map). -/
def replaceValue (fs : List (String × Json)) (r : Json) : List (String × Json) :=
  fs.map (fun kv => if kv.1 = "value" then (kv.1, r) else kv)

/-- Modelled from the spec: `AmountBig::Print(os, x, false)` renders the
magnitude as a decimal string.  The exact decimal-place convention is
external to this repository (core/uintBig.h); the claims under verification
only depend on the rendering being a function of the magnitude. -/
def printAmount (n : Nat) : String := toString n

/-- The sign character (when present) followed by the printed magnitude —
the string built by `jsonExp` / `OnObjSpecial` for an amount node. -/
def renderAmount (sign : Option Char) (mag : Nat) : String :=
  (match sign with
   | some c => String.mk [c]
   | none => "") ++ printAmount mag

/-- Modelled from the spec: `uintBig::ScanDecimal` scans the maximal prefix
of decimal digits, returning the accumulated value and the number of
characters consumed (0 consumed and value 0 when the first character is not
a digit). -/
def scanDecimal : List Char → Nat × Nat
  | [] => (0, 0)
  | c :: rest =>
      if c.isDigit then
        let r := scanDecimal rest
        ((c.toNat - 48) * 10 ^ r.2 + r.1, r.2 + 1)
      else (0, 0)

/-- `HtmlConverter::ReadAmount` (server.cpp:208-233).  A JSON number is read
through nlohmann `get<uint64_t>` — a static cast, i.e. reduction modulo
2^64 — with no sign character.  A string may carry a leading '-' or '+';
the decimal scan must consume the whole remainder. -/
def readAmount (v : Json) : Option (Nat × Option Char) :=
  match v with
  | Json.num i => some ((i % (2 ^ 64 : Int)).toNat, none)
  | Json.str s =>
      let l := s.toList
      let p : List Char × Option Char :=
        match l with
        | c :: rest => if c = '-' ∨ c = '+' then (rest, some c) else (l, none)
        | [] => (l, none)
      let r := scanDecimal p.1
      if r.2 = p.1.length then some (r.1, p.2) else none
  | _ => none

/-- The amount-substitution step shared by `jsonExp` and the spec-worded
expansion: on an (already recursed) field list, if `type` is the string
"amount" and `value` parses as an amount, the `value` field is replaced
by the rendered decimal string (server.cpp:524-550). -/
def expandAmountAt (fs2 : List (String × Json)) : Json :=
  match lookupJ fs2 "type", lookupJ fs2 "value" with
  | some (Json.str t), some v =>
      if t = "amount" then
        match readAmount v with
        | some ms => Json.obj (replaceValue fs2 (Json.str (renderAmount ms.2 ms.1)))
        | none => Json.obj fs2
      else Json.obj fs2
  | _, _ => Json.obj fs2

mutual

/-- `jsonExp` (server.cpp:506-553): recursion guard at 128, children first,
then amount substitution at tagged objects.  `Exc::Fail` is modelled as
`Except.error`. -/
def jsonExpJ (d : Nat) (j : Json) : Except String Json :=
  if 128 < d + 1 then Except.error "recursion too deep"
  else
    match j with
    | Json.arr xs =>
        match jsonExpL (d + 1) xs with
        | Except.error e => Except.error e
        | Except.ok ys => Except.ok (Json.arr ys)
    | Json.obj fs =>
        match jsonExpF (d + 1) fs with
        | Except.error e => Except.error e
        | Except.ok fs2 => Except.ok (expandAmountAt fs2)
    | x => Except.ok x
termination_by sizeOf j

/-- `jsonExp` over the elements of an array (each at the incremented depth). -/
def jsonExpL (d : Nat) : List Json → Except String (List Json)
  | [] => Except.ok []
  | x :: r =>
      match jsonExpJ d x with
      | Except.error e => Except.error e
      | Except.ok y =>
          match jsonExpL d r with
          | Except.error e => Except.error e
          | Except.ok ys => Except.ok (y :: ys)
termination_by l => sizeOf l

/-- `jsonExp` over the member values of an object. -/
def jsonExpF (d : Nat) : List (String × Json) → Except String (List (String × Json))
  | [] => Except.ok []
  | (k, v) :: r =>
      match jsonExpJ d v with
      | Except.error e => Except.error e
      | Except.ok w =>
          match jsonExpF d r with
          | Except.error e => Except.error e
          | Except.ok ws => Except.ok ((k, w) :: ws)
termination_by l => sizeOf l

end

mutual

/-- The expansion pass exactly as the specification words it: visit every
node; at each object whose `type` is the string "amount" and whose `value`
parses as an amount, replace the `value` with the rendered decimal string;
leave every other node, key and value unchanged.  (No recursion guard: the
spec sentence for claim C4 describes only the substitution.) -/
def specExpandJ : Json → Json
  | Json.arr xs => Json.arr (specExpandL xs)
  | Json.obj fs => expandAmountAt (specExpandF fs)
  | j => j
termination_by j => sizeOf j

/-- Spec-worded expansion over array elements. -/
def specExpandL : List Json → List Json
  | [] => []
  | x :: r => specExpandJ x :: specExpandL r
termination_by l => sizeOf l

/-- Spec-worded expansion over object fields. -/
def specExpandF : List (String × Json) → List (String × Json)
  | [] => []
  | (k, v) :: r => (k, specExpandJ v) :: specExpandF r
termination_by l => sizeOf l

end

mutual

/-- Nesting depth of a document (a scalar has depth 1; an array or object is
one deeper than its deepest child; empty containers have depth 1). -/
def jsonDepth : Json → Nat
  | Json.arr xs => 1 + jsonDepthL xs
  | Json.obj fs => 1 + jsonDepthF fs
  | _ => 1
termination_by j => sizeOf j

/-- Depth of the deepest element of an array (0 when empty). -/
def jsonDepthL : List Json → Nat
  | [] => 0
  | x :: r => max (jsonDepth x) (jsonDepthL r)
termination_by l => sizeOf l

/-- Depth of the deepest member value of an object (0 when empty). -/
def jsonDepthF : List (String × Json) → Nat
  | [] => 0
  | (_, v) :: r => max (jsonDepth v) (jsonDepthF r)
termination_by l => sizeOf l

end

/-! ## URL-argument substitution (`HtmlConverter::SubstituteArg`, server.cpp:360-393) -/

/-- Model of `std::string::find(ch, i)` relative to the remaining suffix:
index of the first occurrence of `sep`. -/
def findIdxOpt (sep : Char) : List Char → Option Nat
  | [] => none
  | c :: rest => if c = sep then some 0 else (findIdxOpt sep rest).map (· + 1)

/-- One segment step of the `SubstituteArg` loop: the segment up to and
including the separator (when found), the remainder, and whether a
separator was found (`!bEnd`). -/
def splitSeg (sep : Char) (rem : List Char) : List Char × List Char × Bool :=
  match findIdxOpt sep rem with
  | some k => (rem.take (k + 1), rem.drop (k + 1), true)
  | none => (rem, [], false)

/-- `strncmp(sUrl.c_str() + i, sKey.c_str(), sKey.size()) == 0`: the key
(which contains no NUL) is a literal prefix of the remaining suffix. -/
def keyMatch (key rem : List Char) : Bool := key == rem.take key.length

/-- The scanning loop of `SubstituteArg`: segments are delimited by `?`
(first iteration) then `&`; segments starting with `key=` are dropped,
every other segment is copied verbatim (with its trailing separator);
returns the copied output, the number of copied segments (`nArgs`) and
whether the last copied segment ended in a separator (`bHasSepAtEnd`). -/
def substLoop (key : List Char) (rem : List Char) (iArg nArgs : Nat) (hasSep : Bool) :
    List Char × Nat × Bool :=
  if _hrem : rem = [] then ([], nArgs, hasSep)
  else
    let sep := if iArg = 0 then '?' else '&'
    let t := splitSeg sep rem
    if keyMatch key rem then
      substLoop key t.2.1 (iArg + 1) nArgs hasSep
    else
      let r := substLoop key t.2.1 (iArg + 1) (nArgs + 1) t.2.2
      (t.1 ++ r.1, r.2.1, r.2.2)
termination_by rem.length
decreasing_by
  all_goals
    simp only [splitSeg]
    rcases h : findIdxOpt sep rem with _ | k <;> simp [List.length_drop]
    all_goals cases rem <;> simp_all

/-- `HtmlConverter::SubstituteArg` (server.cpp:360-393). -/
def SubstituteArg (sUrl sKey sVal : String) : String :=
  let key := sKey.toList ++ ['=']
  let r := substLoop key sUrl.toList 0 0 false
  String.mk (r.1 ++ (if r.2.2 then [] else [if r.2.1 ≠ 0 then '&' else '?']) ++
    key ++ sVal.toList)

/-! ## HTML escaping and helpers -/

/-- The per-character substitution of `HtmlConverter::Encode`. -/
def encodeEnt (c : Char) : List Char :=
  if c = '<' then "&#60;".toList
  else if c = '>' then "&#62;".toList
  else if c = '&' then "&#38;".toList
  else [c]

/-- `HtmlConverter::Encode` (server.cpp:176-206).  The source's
copy-on-first-substitution is an allocation optimization; the produced
string is the full substitution. -/
def Encode (s : String) : String := String.mk ((s.toList.map encodeEnt).flatten)

/-- `HtmlConverter::get_ShortOf` (server.cpp:125-136): keep strings of at
most `nMaxChars + 3` characters (`_countof("...") - 1 = 3`), otherwise
truncate to `nMaxChars` and append an ellipsis. -/
def get_ShortOf (s : String) (nMaxChars : Nat) : String :=
  if s.length ≤ nMaxChars + 3 then s
  else String.mk (s.toList.take nMaxChars) ++ "..."

/-- The colored amount fragment emitted by `OnObjSpecial` for `type =
"amount"` (server.cpp:262-281). -/
def amountHtml (sign : Option Char) (mag : Nat) : String :=
  let clr := if sign = some '-' then "red" else if sign = some '+' then "green" else "blue"
  "<p2 style=\"color:" ++ clr ++ "\">" ++
    (match sign with
     | some c => String.mk [c]
     | none => "") ++ printAmount mag ++ "</p2>"

/-- The value rendered for one `more` argument (server.cpp:336-344): strings
are HTML-escaped, numbers go through `get<uint64_t>` (cast modulo 2^64),
anything else leaves the argument text empty. -/
def moreArgVal : Json → String
  | Json.str s => Encode s
  | Json.num i => toString ((i % (2 ^ 64 : Int)).toNat)
  | _ => ""

/-- The fold over the `more` object's members building the pagination URL
(server.cpp:334-347). -/
def foldMoreArgs (p : String) : List (String × Json) → String
  | [] => p
  | (k, v) :: rest => foldMoreArgs (SubstituteArg p k (moreArgVal v)) rest

/-- The `More...` link appended after a nested table (server.cpp:328-350).
nlohmann iteration over a non-object, non-null `more`: a null value yields
an empty range (no substitutions); iterating a non-empty array or a
primitive calls `key()` on a non-object iterator, which throws. -/
def moreLink (url : String) (fsAll : List (String × Json)) : Except String String :=
  match lookupJ fsAll "more" with
  | none => Except.ok ""
  | some (Json.obj ms) =>
      Except.ok ("<a href = \"" ++ foldMoreArgs url ms ++ "\">More..." ++ "</a>")
  | some Json.null =>
      Except.ok ("<a href = \"" ++ url ++ "\">More..." ++ "</a>")
  | some (Json.arr []) =>
      Except.ok ("<a href = \"" ++ url ++ "\">More..." ++ "</a>")
  | some _ => Except.error "cannot use key() for non-object iterators"

/-! ## The HTML converter (`HtmlConverter`, server.cpp:116-503)

`m_os` accumulation is modelled by returning the emitted string; `Exc::Fail`
by `Except.error` (a throw discards any partially accumulated output, which
matches returning no string).  `d` is `m_Depth`, `tbl` is `m_Tbl`, `url` is
`m_Url`. -/

mutual

/-- `HtmlConverter::OnObjInternal` (server.cpp:396-466): depth guard at 128,
special-tag dispatch for objects, generic rendering otherwise. -/
def onObjInternal (d tbl : Nat) (url : String) (j : Json) : Except String String :=
  if 128 < d + 1 then Except.error "recursion too deep"
  else
    match j with
    | Json.obj fs =>
        match onObjSpecial (d + 1) tbl url fs with
        | Except.error e => Except.error e
        | Except.ok (some s) => Except.ok s
        | Except.ok none =>
            match onFields (d + 1) tbl url fs with
            | Except.error e => Except.error e
            | Except.ok s => Except.ok ("<ul>" ++ s ++ "</ul>")
    | Json.arr xs =>
        match onElems (d + 1) tbl url true xs with
        | Except.error e => Except.error e
        | Except.ok s => Except.ok ("[" ++ s ++ "]")
    | Json.str s => Except.ok (Encode s)
    | Json.num i => Except.ok (toString i)
    | Json.bool b => Except.ok (if b then "true" else "false")
    | Json.null => Except.ok ""
termination_by (sizeOf j, 3)

/-- The `<li>key: value</li>` items of a generic object (server.cpp:411-419). -/
def onFields (d tbl : Nat) (url : String) : List (String × Json) → Except String String
  | [] => Except.ok ""
  | (k, v) :: rest =>
      match onObjInternal d tbl url v with
      | Except.error e => Except.error e
      | Except.ok s =>
          match onFields d tbl url rest with
          | Except.error e => Except.error e
          | Except.ok srest => Except.ok ("<li>" ++ k ++ ": " ++ s ++ "</li>" ++ srest)
termination_by l => (sizeOf l, 2)

/-- The comma-joined elements of a generic array (server.cpp:425-437). -/
def onElems (d tbl : Nat) (url : String) (first : Bool) : List Json → Except String String
  | [] => Except.ok ""
  | x :: rest =>
      match onObjInternal d tbl url x with
      | Except.error e => Except.error e
      | Except.ok s =>
          match onElems d tbl url false rest with
          | Except.error e => Except.error e
          | Except.ok srest =>
              Except.ok ((if first then "" else ", ") ++ s ++ srest)
termination_by l => (sizeOf l, 2)

/-- `HtmlConverter::OnObjSpecial` (server.cpp:235-358).  `Except.ok none`
is `return false` (fall back to generic rendering). -/
def onObjSpecial (d tbl : Nat) (url : String) (fs : List (String × Json)) :
    Except String (Option String) :=
  match lookupJ fs "type", lookupJ fs "value" with
  | some (Json.str sType), some objV =>
      if sType = "aid" then
        match objV with
        | Json.num i =>
            let aid := (i % (2 ^ 32 : Int)).toNat
            Except.ok (some (if aid ≠ 0 then
              "<a href = \"asset?htm=1&id=" ++ toString aid ++ "\">Asset-" ++
                toString aid ++ "</a>"
              else "Beam"))
        | _ => Except.ok none
      else if sType = "amount" then
        match readAmount objV with
        | some ms => Except.ok (some (amountHtml ms.2 ms.1))
        | none => Except.ok none
      else if sType = "cid" then
        match objV with
        | Json.str s =>
            let sCid := Encode s
            Except.ok (some ("<a href = \"contract?htm=1&id=" ++ sCid ++ "\">cid-" ++
              get_ShortOf sCid 13 ++ "</a>"))
        | _ => Except.ok none
      else if sType = "th" then
        match objV with
        | Json.str s => Except.ok (some ("<h3 align=center>" ++ Encode s ++ "</h3>"))
        | _ => Except.ok none
      else if sType = "group" then onGroupValue d tbl url fs
      else if sType = "table" then onTableValue d tbl url fs fs
      else Except.ok none
  | _, _ => Except.ok none
termination_by (sizeOf fs, 2)

/-- The `group` tag (server.cpp:304-315): table rows bracketed by three empty
separator rows, rendered at the current depth and table level.  The scan
re-finds the `value` field whose presence the caller established. -/
def onGroupValue (d tbl : Nat) (url : String) :
    List (String × Json) → Except String (Option String)
  | [] => Except.ok none
  | (k, v) :: rest =>
      if k = "value" then
        match v with
        | Json.arr xs =>
            match onTableData d tbl url xs with
            | Except.error e => Except.error e
            | Except.ok s =>
                Except.ok (some ("<tr></tr><tr></tr><tr></tr>" ++ s ++
                  "<tr></tr><tr></tr><tr></tr>"))
        | _ => Except.ok none
      else onGroupValue d tbl url rest
termination_by l => (sizeOf l, 1)

/-- The `table` tag (server.cpp:317-354): a sub-converter `cvt2` with the
same depth and `m_Tbl + 1` renders the value array; a non-array value makes
`OnTable` return false (not special).  On success the optional `More...`
link from the full field list is appended. -/
def onTableValue (d tbl : Nat) (url : String) (fsAll : List (String × Json)) :
    List (String × Json) → Except String (Option String)
  | [] => Except.ok none
  | (k, v) :: rest =>
      if k = "value" then
        match v with
        | Json.arr xs =>
            match onTableData d (tbl + 1) url xs with
            | Except.error e => Except.error e
            | Except.ok s =>
                match moreLink url fsAll with
                | Except.error e => Except.error e
                | Except.ok sMore =>
                    Except.ok (some ("<table style=\"width:100%\">\n" ++ s ++
                      "</table>\n" ++ sMore))
        | _ => Except.ok none
      else onTableValue d tbl url fsAll rest
termination_by l => (sizeOf l, 1)

/-- `HtmlConverter::OnTableData` (server.cpp:138-163): array elements become
`<tr>` rows of `<td>` cells, non-array elements are rendered in place at the
current depth (no depth increment through table contents). -/
def onTableData (d tbl : Nat) (url : String) : List Json → Except String String
  | [] => Except.ok ""
  | Json.arr cells :: rest =>
      match onRow d tbl url cells.length 0 cells with
      | Except.error e => Except.error e
      | Except.ok r =>
          match onTableData d tbl url rest with
          | Except.error e => Except.error e
          | Except.ok srest => Except.ok ("<tr>" ++ r ++ "</tr>\n" ++ srest)
  | x :: rest =>
      match onObjInternal d tbl url x with
      | Except.error e => Except.error e
      | Except.ok s =>
          match onTableData d tbl url rest with
          | Except.error e => Except.error e
          | Except.ok srest => Except.ok (s ++ srest)
termination_by l => (sizeOf l, 2)

/-- One table row (server.cpp:145-157): cell `j` of `n` gets an even-width
style when rendering a nested table (`m_Tbl > 1`) and it is not the last
cell. -/
def onRow (d tbl : Nat) (url : String) (n j : Nat) : List Json → Except String String
  | [] => Except.ok ""
  | c :: rest =>
      match onObjInternal d tbl url c with
      | Except.error e => Except.error e
      | Except.ok s =>
          match onRow d tbl url n (j + 1) rest with
          | Except.error e => Except.error e
          | Except.ok srest =>
              Except.ok ("<td" ++
                (if 1 < tbl ∧ j + 1 < n then
                  " style = \"width:" ++ toString (100 / n) ++ "%\""
                 else "") ++ ">" ++ s ++ "</td>" ++ srest)
termination_by l => (sizeOf l, 2)

end

/-- The fixed document shell emitted by `HtmlConverter::Convert`
(server.cpp:471-486). -/
def htmlShellHead : String :=
  "<!DOCTYPE html>\n<html>\n<head>\n<meta name=\"viewport\" content=\"width=device-width, initial-scale=1\">\n<style>\ntable, th, td \x7b\n  border: 1px solid black;\n  border-collapse: collapse;\n\x7d\ntd \x7b\n  text-align: right;\n\x7d\n</style>\n</head>\n<body>\n"

/-- The closing shell of `HtmlConverter::Convert` (server.cpp:491-493). -/
def htmlShellTail : String := "</body>\n</html>\n"

/-- `HtmlConverter::Convert` (server.cpp:469-494): the document shell around
the recursively rendered tree (depth 0, table level 0). -/
def Convert (url : String) (j : Json) : Except String String :=
  match onObjInternal 0 0 url j with
  | Except.error e => Except.error e
  | Except.ok s => Except.ok (htmlShellHead ++ s ++ htmlShellTail)

/-! ## Machine-readable serialization (`json2Msg`, server.cpp:103-114) -/

mutual

/-- Modelled from the spec: the standard machine-readable encoding of the
document written by `serialize_json_msg` (utility library, outside this
repository).  The claims under verification do not depend on the exact
bytes, only on the body being produced from the (possibly expanded) tree. -/
def jsonStr : Json → String
  | Json.null => "null"
  | Json.bool b => if b then "true" else "false"
  | Json.num i => toString i
  | Json.str s => "\"" ++ s ++ "\""
  | Json.arr xs => "[" ++ jsonStrL true xs ++ "]"
  | Json.obj fs => "\x7b" ++ jsonStrF true fs ++ "\x7d"
termination_by j => (sizeOf j, 1)

/-- Serialization of array elements. -/
def jsonStrL (first : Bool) : List Json → String
  | [] => ""
  | x :: r => (if first then "" else ",") ++ jsonStr x ++ jsonStrL false r
termination_by l => (sizeOf l, 0)

/-- Serialization of object members. -/
def jsonStrF (first : Bool) : List (String × Json) → String
  | [] => ""
  | (k, v) :: r =>
      (if first then "" else ",") ++ "\"" ++ k ++ "\":" ++ jsonStr v ++ jsonStrF false r
termination_by l => (sizeOf l, 0)

end

/-! ## URL arguments and typed accessors -/

/-- Lookup of a raw query argument (`HttpUrl::args` map access by name). -/
def lookupArg : List (String × String) → String → Option String
  | [], _ => none
  | (k2, v) :: rest, k => if k2 = k then some v else lookupArg rest k

/-- Modelled from the spec: `HttpUrl::get_int_arg(name, default)` returns
the default if the argument is absent or unparsable (HttpUrl lives in the
utility library, outside this repository). -/
def get_int_arg (args : List (String × String)) (name : String) (dflt : Int) : Int :=
  match lookupArg args name with
  | none => dflt
  | some s => (s.toInt?).getD dflt

/-- Modelled from the spec: the per-character hex-digit scan of
`uintBigImpl::_Scan` (core/uintBig, outside this repository). -/
def hexVal (c : Char) : Option Nat :=
  if '0' ≤ c ∧ c ≤ '9' then some (c.toNat - 48)
  else if 'a' ≤ c ∧ c ≤ 'f' then some (c.toNat - 87)
  else if 'A' ≤ c ∧ c ≤ 'F' then some (c.toNat - 55)
  else none

/-- Hex digit pairs decoded to bytes; `none` as soon as a character is not a
hex digit (the C++ `_Scan` then returns a count smaller than the text
length, failing the `== n` check in `get_UrlHexArg`). -/
def scanHexBytes : List Char → Option (List Nat)
  | [] => some []
  | c1 :: c2 :: rest =>
      match hexVal c1, hexVal c2 with
      | some h, some l =>
          match scanHexBytes rest with
          | some bs => some ((h * 16 + l) :: bs)
          | none => none
      | _, _ => none
  | [_] => none

/-- `get_UrlHexArg` (server.cpp:675-694): the argument must be present, its
text length must equal `2 * n`, and all characters must decode as hex digit
pairs; the decoded bytes are returned. -/
def get_UrlHexArg (args : List (String × String)) (name : String) (n : Nat) :
    Option (List Nat) :=
  match lookupArg args name with
  | none => none
  | some val => if val.length = 2 * n then scanHexBytes val.toList else none

/-- Lowercase hex digit for a value below 16. -/
def hexDigit (k : Nat) : Char :=
  if k < 10 then Char.ofNat (48 + k) else Char.ofNat (87 + k)

/-- Encoding of raw bytes as 2N lowercase hex characters. -/
def hexEncodeChars : List Nat → List Char
  | [] => []
  | b :: rest => hexDigit (b / 16) :: hexDigit (b % 16) :: hexEncodeChars rest

/-- String form of the hex encoding. -/
def hexEncode (bs : List Nat) : String := String.mk (hexEncodeChars bs)

/-! ## The hdrs column selector (`Server::on_request_hdrs`, server.cpp:717-789) -/

/-- Modelled from the spec: `IAdapter::TotalsCol` (adapter.h, outside this
repository) — absolute and relative variants of the fifteen column kinds
the spec lists, plus an implicit `count` bound modelled by `colCap`. -/
inductive TotalsCol where
  | Hash_Abs | Hash_Rel
  | Time_Abs | Time_Rel
  | Age_Abs | Age_Rel
  | Difficulty_Abs | Difficulty_Rel
  | Fee_Abs | Fee_Rel
  | Kernels_Abs | Kernels_Rel
  | MwOutputs_Abs | MwOutputs_Rel
  | MwInputs_Abs | MwInputs_Rel
  | MwUtxos_Abs | MwUtxos_Rel
  | ShOutputs_Abs | ShOutputs_Rel
  | ShInputs_Abs | ShInputs_Rel
  | ContractsActive_Abs | ContractsActive_Rel
  | ContractCalls_Abs | ContractCalls_Rel
  | SizeCompressed_Abs | SizeCompressed_Rel
  | SizeArchive_Abs | SizeArchive_Rel
deriving Repr, DecidableEq

/-- Whether a column is an absolute variant. -/
def isAbsCol : TotalsCol → Bool
  | TotalsCol.Hash_Abs | TotalsCol.Time_Abs | TotalsCol.Age_Abs
  | TotalsCol.Difficulty_Abs | TotalsCol.Fee_Abs | TotalsCol.Kernels_Abs
  | TotalsCol.MwOutputs_Abs | TotalsCol.MwInputs_Abs | TotalsCol.MwUtxos_Abs
  | TotalsCol.ShOutputs_Abs | TotalsCol.ShInputs_Abs
  | TotalsCol.ContractsActive_Abs | TotalsCol.ContractCalls_Abs
  | TotalsCol.SizeCompressed_Abs | TotalsCol.SizeArchive_Abs => true
  | _ => false

/-- The `switch (ch)` of the cols parser (server.cpp:751-775): uppercase
letters select absolute variants, lowercase relative ones; `H` has no
lowercase counterpart. -/
def recognizedCols : List (Char × TotalsCol) :=
  [('H', TotalsCol.Hash_Abs),
   ('T', TotalsCol.Time_Abs), ('t', TotalsCol.Time_Rel),
   ('G', TotalsCol.Age_Abs), ('g', TotalsCol.Age_Rel),
   ('D', TotalsCol.Difficulty_Abs), ('d', TotalsCol.Difficulty_Rel),
   ('F', TotalsCol.Fee_Abs), ('f', TotalsCol.Fee_Rel),
   ('K', TotalsCol.Kernels_Abs), ('k', TotalsCol.Kernels_Rel),
   ('O', TotalsCol.MwOutputs_Abs), ('o', TotalsCol.MwOutputs_Rel),
   ('I', TotalsCol.MwInputs_Abs), ('i', TotalsCol.MwInputs_Rel),
   ('U', TotalsCol.MwUtxos_Abs), ('u', TotalsCol.MwUtxos_Rel),
   ('Z', TotalsCol.ShOutputs_Abs), ('z', TotalsCol.ShOutputs_Rel),
   ('Y', TotalsCol.ShInputs_Abs), ('y', TotalsCol.ShInputs_Rel),
   ('B', TotalsCol.ContractsActive_Abs), ('b', TotalsCol.ContractsActive_Rel),
   ('P', TotalsCol.ContractCalls_Abs), ('p', TotalsCol.ContractCalls_Rel),
   ('C', TotalsCol.SizeCompressed_Abs), ('c', TotalsCol.SizeCompressed_Rel),
   ('A', TotalsCol.SizeArchive_Abs), ('a', TotalsCol.SizeArchive_Rel)]

/-- Column selected by a single character; `none` is `C::count`
(unrecognized, silently skipped). -/
def charToCol (c : Char) : Option TotalsCol :=
  (recognizedCols.find? (fun p => p.1 = c)).map (fun p => p.2)

/-- Modelled from the spec: `_countof(pCols) = (uint32_t) C::count`, the
number of columns in the enumeration — the hard cap on selected columns. -/
def colCap : Nat := 30

/-- The cols scanning loop (server.cpp:747-785) with `room` the remaining
capacity: recognized characters append their column; once the cap is
reached the loop breaks and the remaining characters are ignored. -/
def parseColsChars : List Char → Nat → List TotalsCol
  | [], _ => []
  | _ :: _, 0 => []
  | c :: rest, room + 1 =>
      match charToCol c with
      | none => parseColsChars rest (room + 1)
      | some v => v :: (if room = 0 then [] else parseColsChars rest room)

/-- The default column list used when `cols` is absent (server.cpp:729-743). -/
def defaultCols : List TotalsCol :=
  [TotalsCol.Hash_Abs, TotalsCol.Time_Abs, TotalsCol.Difficulty_Rel,
   TotalsCol.Fee_Rel, TotalsCol.Kernels_Rel, TotalsCol.MwOutputs_Rel,
   TotalsCol.MwInputs_Rel, TotalsCol.ShOutputs_Rel, TotalsCol.ShInputs_Rel,
   TotalsCol.ContractCalls_Rel]

/-- The column set the hdrs handler passes to the backend. -/
def hdrsCols (args : List (String × String)) : List TotalsCol :=
  match lookupArg args "cols" with
  | none => defaultCols
  | some s => parseColsChars s.toList colCap

/-! ## Route handlers with argument validation (server.cpp:707-715, 811-823) -/

/-- `Server::on_request_blocks` (server.cpp:707-715): non-positive start
height or negative count raise `Exc::Fail("#3.1")`; the backend document is
abstract (`bk`). -/
def on_request_blocks (args : List (String × String)) (bk : Int → Int → Json) :
    Except String Json :=
  let start := get_int_arg args "height" 0
  let n := get_int_arg args "n" 0
  if start ≤ 0 ∨ n < 0 then Except.error "#3.1"
  else Except.ok (bk start n)

/-- `Server::on_request_contract` (server.cpp:811-823): the 32-byte hex `id`
argument is mandatory (`Exc::Fail("id missing")`); the remaining arguments
use defaults; the backend document is abstract (`bc`). -/
def on_request_contract (args : List (String × String))
    (bc : List Nat → Int → Int → Nat → Json) : Except String Json :=
  match get_UrlHexArg args "id" 32 with
  | none => Except.error "id missing"
  | some id =>
      let hMin := get_int_arg args "hMin" 0
      let hMax := get_int_arg args "hMax" (-1)
      let nMaxTxs := (get_int_arg args "nMaxTxs" 4294967295 % 2 ^ 32).toNat
      Except.ok (bc id hMin hMax nMaxTxs)

/-! ## The request/response cycle (`Server::on_request`/`Server::send`) -/

/-- Rendering mode (`IAdapter::Mode`), selected by argument presence
(server.cpp:604-611). -/
inductive Mode where
  | AutoHtml
  | ExplicitType
  | Legacy
deriving Repr, DecidableEq

/-- Mode resolution from the query arguments (server.cpp:604-611). -/
def modeOfArgs (args : List (String × String)) : Mode :=
  if (lookupArg args "htm").isSome then Mode.AutoHtml
  else if (lookupArg args "exp_am").isSome then Mode.ExplicitType
  else Mode.Legacy

/-- Transport outcome of `Server::send` (server.cpp:842-880): whether
`create_response` succeeded and whether the stream writes succeeded. -/
structure SendEnv where
  createOk : Bool
  writeOk : Bool

/-- The response assembled by `Server::send`: status code, status message,
body (`_body`), and whether the content type is `text/html`. -/
structure Response where
  code : Nat
  message : String
  body : String
  isHtml : Bool

/-- Observable outcome of `Server::on_request` for one parsed request:
the attempted response, the returned keepalive flag, and whether the
connection was shut down and erased from the table. -/
structure OnRequestResult where
  response : Option Response
  keepalive : Bool
  removed : Bool

/-- The return value of `Server::send` (server.cpp:879): `ok && code == 200`
where `ok` is response creation and write success. -/
def sendKeep (env : SendEnv) (code : Nat) : Bool :=
  (env.createOk && env.writeOk) && (code == 200)

/-- The body produced by the rendering step of `on_request`
(server.cpp:626-644) for each mode. -/
def renderBody (mode : Mode) (path : String) (j : Json) : Except String String :=
  match mode with
  | Mode.AutoHtml => Convert path j
  | Mode.ExplicitType =>
      match jsonExpJ 0 j with
      | Except.error e => Except.error e
      | Except.ok j2 => Except.ok (jsonStr j2)
  | Mode.Legacy => Except.ok (jsonStr j)

/-- `Server::on_request` (server.cpp:556-666).  The connection lookup, the
parse check, the route dispatch and the access check become flags; the
resolved handler's outcome (a document, or a thrown `Exc::Fail`) is the
`handler` argument.  Any exception from the handler or the renderer is
caught and answered 500 with `_body` still empty; `keepalive` is the value
returned by `send` on the 200 path and `false` on every other path, and a
non-keepalive connection is shut down and erased before returning. -/
def on_request (env : SendEnv) (connPresent msgOk routeFound aclOk : Bool)
    (args : List (String × String)) (path : String) (handler : Except String Json) :
    OnRequestResult :=
  if connPresent = false then ⟨none, false, false⟩
  else if msgOk = false then ⟨none, false, true⟩
  else
    let mode := modeOfArgs args
    let pr : Option Response × Bool :=
      if routeFound = false then (some ⟨404, "Not Found", "", false⟩, false)
      else if aclOk = false then (some ⟨403, "Forbidden", "", false⟩, false)
      else
        match handler with
        | Except.error e => (some ⟨500, "Internal error: " ++ e, "", false⟩, false)
        | Except.ok j =>
            match renderBody mode path j with
            | Except.error e => (some ⟨500, "Internal error: " ++ e, "", false⟩, false)
            | Except.ok body =>
                (some ⟨200, "OK", body, decide (mode = Mode.AutoHtml)⟩, sendKeep env 200)
    ⟨pr.1, pr.2, !pr.2⟩

/-! ## IP access control (`Server::IPAccessControl`, server.cpp:882-920) -/

/-- `io::Address::localhost().ip()` — 127.0.0.1 as a 32-bit value
(modelled constant; io lives outside this repository). -/
def localhostIP : Nat := 0x7F000001

/-- The access-list state: the enabled flag fixed at construction, the last
observed file modification time, and the permitted-IP set (`std::set`
modelled as a duplicate-free list; membership is what `check` reads). -/
structure IPAccessControl where
  enabled : Bool
  lastModified : Nat
  ips : List Nat

/-- `std::set::insert`: adds the element unless already present. -/
def insertIp (ips : List Nat) (ip : Nat) : List Nat :=
  if ip ∈ ips then ips else ips ++ [ip]

/-- Model of `boost::algorithm::trim`: whitespace removed from both ends. -/
def trimStr (s : String) : String :=
  String.mk (((s.toList.dropWhile Char.isWhitespace).reverse.dropWhile
    Char.isWhitespace).reverse)

/-- The addresses resolved from the file's lines (server.cpp:904-910):
each line is trimmed, lines shorter than 7 characters are skipped, the rest
are resolved (`resolve` models `io::Address::resolve`; unresolvable lines
are skipped). -/
def resolvedIPs (lines : List String) (resolve : String → Option Nat) : List Nat :=
  lines.filterMap (fun l =>
    let t := trimStr l
    if t.length < 7 then none else resolve t)

/-- `IPAccessControl::refresh` (server.cpp:890-914).  `fileTime = none`
models `last_write_time` throwing (the exception is logged and swallowed,
leaving the state unchanged).  An unchanged or older modification time
returns immediately.  Otherwise the resolved addresses are inserted into
the member set — which the source never clears. -/
def aclRefresh (st : IPAccessControl) (fileTime : Option Nat) (lines : List String)
    (resolve : String → Option Nat) : IPAccessControl :=
  if st.enabled = false then st
  else
    match fileTime with
    | none => st
    | some t =>
        if t ≤ st.lastModified then st
        else
          { st with lastModified := t,
                    ips := (resolvedIPs lines resolve).foldl insertIp st.ips }

/-- `IPAccessControl::check` (server.cpp:916-920): true when disabled or for
the loopback address, otherwise set membership. -/
def aclCheck (st : IPAccessControl) (peerIp : Nat) : Bool :=
  !st.enabled || peerIp == localhostIP || st.ips.contains peerIp

/-! ## Accept-time whitelist (`Server::on_stream_accepted`, server.cpp:69-97) -/

/-- Observable outcome of the accept callback: the connection table (keys
only — `peer.u64()` identities) and whether a server restart was scheduled. -/
structure AcceptOutcome where
  connections : List Nat
  restartScheduled : Bool

/-- Connection-table insertion `_connections[key] = ...` (key set view:
an existing key keeps its place, a new key is appended). -/
def connInsert (tbl : List Nat) (k : Nat) : List Nat :=
  if k ∈ tbl then tbl else tbl ++ [k]

/-- `Server::on_stream_accepted` (server.cpp:69-97): with a non-empty
whitelist, a peer whose IP is not listed is dropped with no response and no
table entry — there is no loopback exemption here, unlike
`IPAccessControl::check`.  On an accept error a delayed restart is
scheduled. -/
def on_stream_accepted (errorCode : Nat) (whitelist : List Nat) (conns : List Nat)
    (peerIp peerKey : Nat) : AcceptOutcome :=
  if errorCode = 0 then
    if whitelist ≠ [] ∧ peerIp ∉ whitelist then ⟨conns, false⟩
    else ⟨connInsert conns peerKey, false⟩
  else ⟨conns, true⟩

/-! ## Concrete documents used by counterexamples and witnesses -/

/-- A document nested entirely through `table` tags: JSON depth `2n + 1`
while the HTML renderer's depth counter only advances by 1 per level. -/
def deepTable : Nat → Json
  | 0 => Json.num 1
  | n + 1 => Json.obj [("type", Json.str "table"), ("value", Json.arr [deepTable n])]

/-- A document nested through plain arrays: JSON depth `n + 1`. -/
def deepArr : Nat → Json
  | 0 => Json.null
  | n + 1 => Json.arr [deepArr n]

/-- A concrete resolver for access-list counterexamples: resolves exactly
the address "10.0.0.2" (to ip value 2). -/
def c1resolve : String → Option Nat :=
  fun s => if s = "10.0.0.2" then some 2 else none

/-- Query segments joined by `&` (the layout of a query string). -/
def joinAmp : List (List Char) → List Char
  | [] => []
  | [a] => a
  | a :: rest => a ++ '&' :: joinAmp rest

/-- The outcome of `substLoop` on a query string decomposed into `&`-free
segments (proved equal to `substLoop` below): matching segments are
dropped, kept segments carry their following separator, `nArgs` counts the
kept segments, and the final flag records whether the last kept segment was
followed by a separator in the URL. -/
def specLoop (key : List Char) : List (List Char) → Nat → Bool → List Char × Nat × Bool
  | [], nArgs, hasSep => ([], nArgs, hasSep)
  | [a], nArgs, hasSep =>
      if a = [] then ([], nArgs, hasSep)
      else if keyMatch key a then ([], nArgs, hasSep)
      else (a, nArgs + 1, false)
  | a :: b :: t, nArgs, hasSep =>
      if keyMatch key a then specLoop key (b :: t) nArgs hasSep
      else
        let r := specLoop key (b :: t) (nArgs + 1) true
        (a ++ '&' :: r.1, r.2)

/-! # Theorems -/
/-- Every document has depth at least 1. -/
theorem jsonDepth_pos (j : Json) : 1 ≤ jsonDepth j := by
  cases j <;> simp [jsonDepth]

mutual

/-- Below the guard, `jsonExp` succeeds and computes exactly the spec-worded
expansion. -/
theorem jsonExpJ_ok (d : Nat) : (j : Json) → d + jsonDepth j ≤ 128 →
    jsonExpJ d j = Except.ok (specExpandJ j)
  | Json.null, h => by simp [jsonDepth] at h; simp [jsonExpJ, specExpandJ]; omega
  | Json.bool b, h => by simp [jsonDepth] at h; simp [jsonExpJ, specExpandJ]; omega
  | Json.num i, h => by simp [jsonDepth] at h; simp [jsonExpJ, specExpandJ]; omega
  | Json.str s, h => by simp [jsonDepth] at h; simp [jsonExpJ, specExpandJ]; omega
  | Json.arr xs, h => by
      have hdep : jsonDepth (Json.arr xs) = 1 + jsonDepthL xs := by simp [jsonDepth]
      have hg : ¬ 128 < d + 1 := by omega
      have hrec := jsonExpL_ok (d + 1) xs (by omega)
      simp [jsonExpJ, specExpandJ, hg, hrec]
  | Json.obj fs, h => by
      have hdep : jsonDepth (Json.obj fs) = 1 + jsonDepthF fs := by simp [jsonDepth]
      have hg : ¬ 128 < d + 1 := by omega
      have hrec := jsonExpF_ok (d + 1) fs (by omega)
      simp [jsonExpJ, specExpandJ, hg, hrec]
termination_by j => sizeOf j

/-- List version of `jsonExpJ_ok`. -/
theorem jsonExpL_ok (d : Nat) : (l : List Json) → d + jsonDepthL l ≤ 128 →
    jsonExpL d l = Except.ok (specExpandL l)
  | [], _ => by simp [jsonExpL, specExpandL]
  | x :: r, h => by
      have hdep : jsonDepthL (x :: r) = max (jsonDepth x) (jsonDepthL r) := by
        simp [jsonDepthL]
      have h1 := jsonExpJ_ok d x (by omega)
      have h2 := jsonExpL_ok d r (by omega)
      simp [jsonExpL, specExpandL, h1, h2]
termination_by l => sizeOf l

/-- Field version of `jsonExpJ_ok`. -/
theorem jsonExpF_ok (d : Nat) : (l : List (String × Json)) → d + jsonDepthF l ≤ 128 →
    jsonExpF d l = Except.ok (specExpandF l)
  | [], _ => by simp [jsonExpF, specExpandF]
  | (k, v) :: r, h => by
      have hdep : jsonDepthF ((k, v) :: r) = max (jsonDepth v) (jsonDepthF r) := by
        simp [jsonDepthF]
      have h1 := jsonExpJ_ok d v (by omega)
      have h2 := jsonExpF_ok d r (by omega)
      simp [jsonExpF, specExpandF, h1, h2]
termination_by l => sizeOf l

end

/-- A uniform per-element depth bound bounds the array depth. -/
theorem jsonDepthL_le (c : Nat) (l : List Json) (h : ∀ x ∈ l, c + jsonDepth x ≤ 128)
    (h0 : c ≤ 128) : c + jsonDepthL l ≤ 128 := by
  induction l with
  | nil => simp [jsonDepthL]; omega
  | cons x r ih =>
      have hx := h x (by simp)
      have hr := ih (fun y hy => h y (by simp [hy]))
      simp only [jsonDepthL] at *
      omega

/-- A uniform per-member depth bound bounds the object depth. -/
theorem jsonDepthF_le (c : Nat) (l : List (String × Json))
    (h : ∀ kv ∈ l, c + jsonDepth kv.2 ≤ 128) (h0 : c ≤ 128) :
    c + jsonDepthF l ≤ 128 := by
  induction l with
  | nil => simp [jsonDepthF]; omega
  | cons kv r ih =>
      have hx := h kv (by simp)
      have hr := ih (fun y hy => h y (by simp [hy]))
      rcases kv with ⟨k, v⟩
      simp only [jsonDepthF] at *
      omega

mutual

/-- `jsonExp` can only succeed when the guard was never hit: success bounds
the depth. -/
theorem jsonExpJ_depth (d : Nat) : (j : Json) → (r : Json) →
    jsonExpJ d j = Except.ok r → d + jsonDepth j ≤ 128
  | Json.null, r, h => by
      by_cases hg : 128 < d + 1
      · simp [jsonExpJ, hg] at h
      · simp [jsonDepth]; omega
  | Json.bool b, r, h => by
      by_cases hg : 128 < d + 1
      · simp [jsonExpJ, hg] at h
      · simp [jsonDepth]; omega
  | Json.num i, r, h => by
      by_cases hg : 128 < d + 1
      · simp [jsonExpJ, hg] at h
      · simp [jsonDepth]; omega
  | Json.str s, r, h => by
      by_cases hg : 128 < d + 1
      · simp [jsonExpJ, hg] at h
      · simp [jsonDepth]; omega
  | Json.arr xs, r, h => by
      by_cases hg : 128 < d + 1
      · simp [jsonExpJ, hg] at h
      · simp only [jsonExpJ, hg, if_false] at h
        cases hL : jsonExpL (d + 1) xs with
        | error e => rw [hL] at h; simp at h
        | ok ys =>
            have hall := jsonExpL_depth (d + 1) xs ys hL
            have := jsonDepthL_le (d + 1) xs hall (by omega)
            simp [jsonDepth]; omega
  | Json.obj fs, r, h => by
      by_cases hg : 128 < d + 1
      · simp [jsonExpJ, hg] at h
      · simp only [jsonExpJ, hg, if_false] at h
        cases hF : jsonExpF (d + 1) fs with
        | error e => rw [hF] at h; simp at h
        | ok ws =>
            have hall := jsonExpF_depth (d + 1) fs ws hF
            have := jsonDepthF_le (d + 1) fs hall (by omega)
            simp [jsonDepth]; omega
termination_by j => sizeOf j

/-- List version of `jsonExpJ_depth`: success bounds every element. -/
theorem jsonExpL_depth (d : Nat) : (l : List Json) → (r : List Json) →
    jsonExpL d l = Except.ok r → ∀ x ∈ l, d + jsonDepth x ≤ 128
  | [], r, h => by simp
  | x :: rest, r, h => by
      simp only [jsonExpL] at h
      cases hx : jsonExpJ d x with
      | error e => rw [hx] at h; simp at h
      | ok y =>
          rw [hx] at h
          cases hr : jsonExpL d rest with
          | error e => rw [hr] at h; simp at h
          | ok ys =>
              intro x0 hx0
              rcases List.mem_cons.mp hx0 with h1 | h1
              · rw [h1]; exact jsonExpJ_depth d x y hx
              · exact jsonExpL_depth d rest ys hr x0 h1
termination_by l => sizeOf l

/-- Field version of `jsonExpJ_depth`: success bounds every member value. -/
theorem jsonExpF_depth (d : Nat) : (l : List (String × Json)) →
    (r : List (String × Json)) →
    jsonExpF d l = Except.ok r → ∀ kv ∈ l, d + jsonDepth kv.2 ≤ 128
  | [], r, h => by simp
  | (k, v) :: rest, r, h => by
      simp only [jsonExpF] at h
      cases hx : jsonExpJ d v with
      | error e => rw [hx] at h; simp at h
      | ok w =>
          rw [hx] at h
          cases hr : jsonExpF d rest with
          | error e => rw [hr] at h; simp at h
          | ok ws =>
              intro kv0 hkv0
              rcases List.mem_cons.mp hkv0 with h1 | h1
              · rw [h1]; exact jsonExpJ_depth d v w hx
              · exact jsonExpF_depth d rest ws hr kv0 h1
termination_by l => sizeOf l

end

/-- A document nested deeper than the guard makes `jsonExp` fail. -/
theorem jsonExp_deep_fails (j : Json) (h : 128 < jsonDepth j) :
    ∃ e, jsonExpJ 0 j = Except.error e := by
  cases hE : jsonExpJ 0 j with
  | ok r => exact absurd (jsonExpJ_depth 0 j r hE) (by omega)
  | error e => exact ⟨e, rfl⟩

/-- C4: in expanded (exp_am) mode, every object node with string key `type`
equal to "amount" and a `value` parsing as an amount gets its `value`
replaced by the decimal-string rendering (sign prefix exactly when a sign
was present); every other node, key and value is preserved — formalized as
`jsonExp` computing the spec-worded transformation `specExpandJ` whenever
the depth guard admits the document. -/
theorem c4_expansion_refines_spec (j : Json) (h : jsonDepth j ≤ 128) :
    jsonExpJ 0 j = Except.ok (specExpandJ j) :=
  jsonExpJ_ok 0 j (by omega)

/-- Witness for `c4_expansion_refines_spec` at a concrete two-level document. -/
theorem c4_witness :
    jsonDepth (Json.obj [("type", Json.str "amount"), ("value", Json.str "-12")]) ≤ 128 ∧
    jsonExpJ 0 (Json.obj [("type", Json.str "amount"), ("value", Json.str "-12")]) =
      Except.ok (specExpandJ (Json.obj [("type", Json.str "amount"),
        ("value", Json.str "-12")])) :=
  ⟨by simp [jsonDepth, jsonDepthF],
   c4_expansion_refines_spec _ (by simp [jsonDepth, jsonDepthF])⟩

/-- C9: a numeric (non-string) amount value parses through `get<uint64_t>`:
it always succeeds, reduces the machine integer modulo 2^64, and sets no
sign character — so a numeric amount is rendered as an unsigned magnitude
with no sign prefix by the expansion pass. -/
theorem c9_numeric_amount (i : Int) (d : Nat) (h : d ≤ 126) :
    readAmount (Json.num i) = some ((i % (2 ^ 64 : Int)).toNat, none) ∧
    jsonExpJ d (Json.obj [("type", Json.str "amount"), ("value", Json.num i)]) =
      Except.ok (Json.obj [("type", Json.str "amount"),
        ("value", Json.str (printAmount ((i % (2 ^ 64 : Int)).toNat)))]) := by
  constructor
  · simp [readAmount]
  · have hdep : jsonDepth (Json.obj [("type", Json.str "amount"),
        ("value", Json.num i)]) = 2 := by
      simp [jsonDepth, jsonDepthF]
    have hok := jsonExpJ_ok d _ (by rw [hdep]; omega)
    rw [hok]
    simp [specExpandJ, specExpandF, expandAmountAt, lookupJ, replaceValue,
      readAmount, renderAmount]

/-- Witness for `c9_numeric_amount` at the negative input -5: parsing
succeeds with magnitude 2^64 - 5 and no sign. -/
theorem c9_witness :
    (0 : Nat) ≤ 126 ∧
    (readAmount (Json.num (-5)) = some (((-5 : Int) % (2 ^ 64 : Int)).toNat, none) ∧
     jsonExpJ 0 (Json.obj [("type", Json.str "amount"), ("value", Json.num (-5))]) =
       Except.ok (Json.obj [("type", Json.str "amount"),
         ("value", Json.str (printAmount (((-5 : Int) % (2 ^ 64 : Int)).toNat)))])) :=
  ⟨by omega, c9_numeric_amount (-5) 0 (by omega)⟩

/-- A failing render step is answered 500 with the failure description, an
empty body, no keepalive, and the connection removed. -/
theorem on_request_render_error (env : SendEnv) (args : List (String × String))
    (path : String) (j : Json) (e : String)
    (h : renderBody (modeOfArgs args) path j = Except.error e) :
    on_request env true true true true args path (Except.ok j) =
      ⟨some ⟨500, "Internal error: " ++ e, "", false⟩, false, true⟩ := by
  simp [on_request, h]

/-- A handler failure (`Exc::Fail`) is answered 500 with the failure
description, an empty body, no keepalive, and the connection removed. -/
theorem on_request_handler_error (env : SendEnv) (args : List (String × String))
    (path : String) (e : String) :
    on_request env true true true true args path (Except.error e) =
      ⟨some ⟨500, "Internal error: " ++ e, "", false⟩, false, true⟩ := by
  simp [on_request]

/-- C2: for every parsed request (connection present, message parsed), the
connection is kept alive iff the response had status 200 and both response
creation and the stream writes succeeded; whenever it is not kept alive —
any non-200 response or a write failure — it is shut down and removed from
the connection table before `on_request` returns. -/
theorem c2_keepalive_iff_200 (env : SendEnv) (routeFound aclOk : Bool)
    (args : List (String × String)) (path : String) (handler : Except String Json) :
    ((on_request env true true routeFound aclOk args path handler).keepalive = true ↔
      ((∃ resp, (on_request env true true routeFound aclOk args path handler).response =
          some resp ∧ resp.code = 200) ∧ env.createOk = true ∧ env.writeOk = true)) ∧
    ((on_request env true true routeFound aclOk args path handler).keepalive = false →
      (on_request env true true routeFound aclOk args path handler).removed = true) := by
  cases routeFound with
  | false => simp [on_request]
  | true =>
      cases aclOk with
      | false => simp [on_request]
      | true =>
          cases handler with
          | error e => simp [on_request]
          | ok j =>
              cases hR : renderBody (modeOfArgs args) path j with
              | error e => simp [on_request, hR]
              | ok body =>
                  simp [on_request, hR, sendKeep]
                  cases env with
                  | mk c w => cases c <;> cases w <;> simp

/-- Witness for `c2_keepalive_iff_200`: a 404 (unknown route) response is
not kept alive, and the connection is removed. -/
theorem c2_witness :
    (on_request ⟨true, true⟩ true true false true [] "status"
      (Except.ok Json.null)).removed = true :=
  (c2_keepalive_iff_200 ⟨true, true⟩ false true [] "status"
    (Except.ok Json.null)).2 (by rfl)

/-- A chain of nested `table` tags renders successfully as long as the
renderer's own depth counter stays within the guard: the counter advances
by only 1 per table level although each level adds 2 to the JSON nesting
depth (the object and its `value` array are traversed by `OnObjSpecial` /
`OnTableData` at the containing node's depth). -/
theorem deepTableRenders (url : String) : (n : Nat) → ∀ d tbl, d + n ≤ 127 →
    (∃ s, onObjInternal d tbl url (deepTable n) = Except.ok s) ∧
    (∃ s2, onTableData d tbl url [deepTable n] = Except.ok s2)
  | 0 => by
      intro d tbl h
      have hg : ¬ 128 < d + 1 := by omega
      constructor
      · exact ⟨toString (1 : Int), by simp [deepTable, onObjInternal, hg]⟩
      · exact ⟨toString (1 : Int) ++ "", by
          simp [deepTable, onTableData, onObjInternal, hg]⟩
  | n + 1 => by
      intro d tbl h
      obtain ⟨⟨s1, hs1⟩, s2, hs2⟩ := deepTableRenders url n (d + 1) (tbl + 1) (by omega)
      have hg : ¬ 128 < d + 1 := by omega
      have ha : ∃ s, onObjInternal d tbl url (deepTable (n + 1)) = Except.ok s := by
        simp only [deepTable]
        simp [onObjInternal, onObjSpecial, onTableValue, lookupJ, moreLink, hg, hs2]
      obtain ⟨s3, hs3⟩ := ha
      refine ⟨⟨s3, hs3⟩, ?_⟩
      have hs3b : onObjInternal d tbl url (Json.obj [("type", Json.str "table"),
          ("value", Json.arr [deepTable n])]) = Except.ok s3 := by
        simpa only [deepTable] using hs3
      simp only [deepTable]
      simp [onTableData, hs3b]

/-- JSON nesting depth of the nested-table document: each level adds 2. -/
theorem deepTable_depth : ∀ n, jsonDepth (deepTable n) = 2 * n + 1
  | 0 => by simp [deepTable, jsonDepth]
  | n + 1 => by
      have ih := deepTable_depth n
      simp [deepTable, jsonDepth, jsonDepthF, jsonDepthL, ih]
      omega

/-- Any nested-table document within the renderer's counter bound is
answered 200 (with keepalive) in HTML mode. -/
theorem deepTable_ok_200 (n : Nat) (h : n ≤ 127) :
    (on_request ⟨true, true⟩ true true true true [("htm", "1")] "hdrs?htm=1"
      (Except.ok (deepTable n))).response.map Response.code = some 200 ∧
    (on_request ⟨true, true⟩ true true true true [("htm", "1")] "hdrs?htm=1"
      (Except.ok (deepTable n))).keepalive = true := by
  obtain ⟨⟨s, hs⟩, -⟩ := deepTableRenders "hdrs?htm=1" n 0 0 (by omega)
  have hmode : modeOfArgs [("htm", "1")] = Mode.AutoHtml := by
    simp [modeOfArgs, lookupArg]
  have hrb : renderBody (modeOfArgs [("htm", "1")]) "hdrs?htm=1" (deepTable n) =
      Except.ok (htmlShellHead ++ s ++ htmlShellTail) := by
    rw [hmode]
    simp [renderBody, Convert, hs]
  constructor
  · simp [on_request, hrb]
  · simp [on_request, hrb, sendKeep]

/-- C3 counterexample: a document nested 129 levels deep (through `table`
tags) is rendered successfully in HTML mode — the request is answered 200
with keepalive, not 500 — refuting the claim that every document nested
deeper than 128 aborts rendering in HTML mode. -/
theorem c3_counterexample :
    128 < jsonDepth (deepTable 64) ∧
    (on_request ⟨true, true⟩ true true true true [("htm", "1")] "hdrs?htm=1"
      (Except.ok (deepTable 64))).response.map Response.code = some 200 ∧
    (on_request ⟨true, true⟩ true true true true [("htm", "1")] "hdrs?htm=1"
      (Except.ok (deepTable 64))).keepalive = true :=
  ⟨by rw [deepTable_depth]; omega,
   (deepTable_ok_200 64 (by omega)).1, (deepTable_ok_200 64 (by omega)).2⟩

/-- JSON nesting depth of the nested-array document. -/
theorem deepArr_depth : ∀ n, jsonDepth (deepArr n) = n + 1
  | 0 => by simp [deepArr, jsonDepth]
  | n + 1 => by
      have ih := deepArr_depth n
      simp [deepArr, jsonDepth, jsonDepthL, ih]
      omega

/-- C3 (amended): whenever the render step fails, the request is answered
500 with the failure description and an *empty* body (never a partial body
under a 200), the connection is not kept alive and is removed; in expanded
(exp_am) mode a document nested deeper than 128 always makes the render
step fail this way.  (In HTML mode the guard tracks the renderer's own
counter, which does not advance through `table`/`group` contents — see the
counterexample — so HTML-mode failure is premised on the renderer's
failure, not on the JSON nesting depth.) -/
theorem c3_amended (env : SendEnv) (args : List (String × String)) (path : String)
    (j : Json) :
    (∀ e, renderBody (modeOfArgs args) path j = Except.error e →
      on_request env true true true true args path (Except.ok j) =
        ⟨some ⟨500, "Internal error: " ++ e, "", false⟩, false, true⟩) ∧
    (modeOfArgs args = Mode.ExplicitType → 128 < jsonDepth j →
      ∃ e, on_request env true true true true args path (Except.ok j) =
        ⟨some ⟨500, "Internal error: " ++ e, "", false⟩, false, true⟩) := by
  constructor
  · intro e he
    exact on_request_render_error env args path j e he
  · intro hm hd
    obtain ⟨e, hE⟩ := jsonExp_deep_fails j hd
    have hrb : renderBody (modeOfArgs args) path j = Except.error e := by
      rw [hm]
      simp [renderBody, hE]
    exact ⟨e, on_request_render_error env args path j e hrb⟩

/-- Witness for `c3_amended`: a 129-deep array document in exp_am mode is
answered 500 with an empty body and the connection removed. -/
theorem c3_witness :
    modeOfArgs [("exp_am", "1")] = Mode.ExplicitType ∧
    128 < jsonDepth (deepArr 128) ∧
    ∃ e, on_request ⟨true, true⟩ true true true true [("exp_am", "1")] "status"
        (Except.ok (deepArr 128)) =
      ⟨some ⟨500, "Internal error: " ++ e, "", false⟩, false, true⟩ :=
  ⟨by decide, by rw [deepArr_depth]; omega,
   (c3_amended ⟨true, true⟩ [("exp_am", "1")] "status" (deepArr 128)).2
     (by decide) (by rw [deepArr_depth]; omega)⟩

/-- C8: non-positive pagination bounds on the blocks route and an absent or
malformed hex `id` on the contract route raise request-scoped failures
(`Exc::Fail`), and every handler failure is caught at the request boundary
and surfaced as a 500 response carrying the description, with the
connection closed and removed — it never propagates past `on_request`. -/
theorem c8_validation_500 (args : List (String × String)) (bk : Int → Int → Json)
    (bc : List Nat → Int → Int → Nat → Json) (env : SendEnv) (path : String)
    (args2 : List (String × String)) :
    (get_int_arg args "height" 0 ≤ 0 → get_int_arg args "n" 0 ≤ 0 →
      on_request_blocks args bk = Except.error "#3.1") ∧
    (get_UrlHexArg args "id" 32 = none →
      on_request_contract args bc = Except.error "id missing") ∧
    (∀ e, on_request env true true true true args2 path (Except.error e) =
      ⟨some ⟨500, "Internal error: " ++ e, "", false⟩, false, true⟩) := by
  refine ⟨?_, ?_, ?_⟩
  · intro h1 _h2
    have hc : get_int_arg args "height" 0 ≤ 0 ∨ get_int_arg args "n" 0 < 0 :=
      Or.inl h1
    simp [on_request_blocks, hc]
  · intro h
    simp [on_request_contract, h]
  · intro e
    exact on_request_handler_error env args2 path e

/-- Witness for `c8_validation_500`: a request with no arguments fails both
validations, and the failure is answered 500. -/
theorem c8_witness :
    (get_int_arg [] "height" 0 ≤ 0 ∧ get_int_arg [] "n" 0 ≤ 0 ∧
      on_request_blocks [] (fun _ _ => Json.null) = Except.error "#3.1") ∧
    (get_UrlHexArg [] "id" 32 = none ∧
      on_request_contract [] (fun _ _ _ _ => Json.null) = Except.error "id missing") ∧
    on_request ⟨true, true⟩ true true true true [] "blocks" (Except.error "#3.1") =
      ⟨some ⟨500, "Internal error: " ++ "#3.1", "", false⟩, false, true⟩ :=
  ⟨⟨by decide, by decide,
    (c8_validation_500 [] (fun _ _ => Json.null) (fun _ _ _ _ => Json.null)
      ⟨true, true⟩ "blocks" []).1 (by decide) (by decide)⟩,
   ⟨by decide,
    (c8_validation_500 [] (fun _ _ => Json.null) (fun _ _ _ _ => Json.null)
      ⟨true, true⟩ "blocks" []).2.1 (by decide)⟩,
   (c8_validation_500 [] (fun _ _ => Json.null) (fun _ _ _ _ => Json.null)
     ⟨true, true⟩ "blocks" []).2.2 "#3.1"⟩

/-- Membership in a `std::set`-style insert. -/
theorem insertIp_mem (l : List Nat) (y x : Nat) :
    x ∈ insertIp l y ↔ x ∈ l ∨ x = y := by
  by_cases h : y ∈ l
  · simp only [insertIp, if_pos h]
    constructor
    · exact Or.inl
    · rintro (hx | hx)
      · exact hx
      · rw [hx]
        exact h
  · simp [insertIp, h]

/-- Membership after folding inserts: the accumulated set plus the inserted
elements. -/
theorem foldl_insertIp_mem (l : List Nat) (acc : List Nat) (x : Nat) :
    x ∈ l.foldl insertIp acc ↔ x ∈ acc ∨ x ∈ l := by
  induction l generalizing acc with
  | nil => simp
  | cons y r ih =>
      simp only [List.foldl_cons, ih, insertIp_mem, List.mem_cons]
      tauto

/-- C1 counterexample: an enabled access list whose set holds ip 1 observes
a newer file that resolves only to ip 2; after the refresh, ip 1 is still a
member of the permitted set (and is still accepted by `check`), although it
is absent from the file — the set is not replaced. -/
theorem c1_counterexample :
    (aclRefresh ⟨true, 0, [1]⟩ (some 1) ["10.0.0.2"] c1resolve).ips = [1, 2] ∧
    resolvedIPs ["10.0.0.2"] c1resolve = [2] ∧
    (aclRefresh ⟨true, 0, [1]⟩ (some 1) ["10.0.0.2"] c1resolve).ips ≠
      resolvedIPs ["10.0.0.2"] c1resolve ∧
    aclCheck (aclRefresh ⟨true, 0, [1]⟩ (some 1) ["10.0.0.2"] c1resolve) 1 = true := by
  refine ⟨?_, ?_, ?_, ?_⟩ <;> decide

/-- C1 (amended): when an enabled access list observes a newer modification
time, `refresh` *adds* the addresses resolved from the file's valid lines
(trimmed, length at least 7, resolvable) to the existing permitted set —
the new set is the union of the old set and the resolved addresses, so
previously permitted addresses remain permitted; the stored modification
time becomes the observed one. -/
theorem c1_amended (st : IPAccessControl) (t : Nat) (lines : List String)
    (resolve : String → Option Nat) (hEn : st.enabled = true)
    (hT : st.lastModified < t) :
    (aclRefresh st (some t) lines resolve).lastModified = t ∧
    ∀ ip, ip ∈ (aclRefresh st (some t) lines resolve).ips ↔
      (ip ∈ st.ips ∨ ip ∈ resolvedIPs lines resolve) := by
  have hgate : ¬ t ≤ st.lastModified := by omega
  constructor
  · simp [aclRefresh, hEn, hgate]
  · intro ip
    simp [aclRefresh, hEn, hgate, foldl_insertIp_mem]

/-- Witness for `c1_amended` at the counterexample's concrete state. -/
theorem c1_witness :
    (⟨true, 0, [1]⟩ : IPAccessControl).enabled = true ∧ (0 : Nat) < 1 ∧
    ((aclRefresh ⟨true, 0, [1]⟩ (some 1) ["10.0.0.2"] c1resolve).lastModified = 1 ∧
     ∀ ip, ip ∈ (aclRefresh ⟨true, 0, [1]⟩ (some 1) ["10.0.0.2"] c1resolve).ips ↔
       (ip ∈ (⟨true, 0, [1]⟩ : IPAccessControl).ips ∨
        ip ∈ resolvedIPs ["10.0.0.2"] c1resolve)) :=
  ⟨rfl, by omega, c1_amended ⟨true, 0, [1]⟩ 1 ["10.0.0.2"] c1resolve rfl (by decide)⟩

/-- C10: with a non-empty transport whitelist, an accepted stream whose
peer IP is not listed is dropped at accept time — no table entry is
created (and no restart is scheduled; nothing is written back).  The
quantifier covers the loopback address: unlike `IPAccessControl::check`,
which always accepts loopback, the accept-time whitelist grants no
loopback exemption. -/
theorem c10_whitelist_no_loopback_exemption (wl conns : List Nat) (ip k : Nat)
    (hwl : wl ≠ []) (hip : ip ∉ wl) :
    (on_stream_accepted 0 wl conns ip k).connections = conns ∧
    (on_stream_accepted 0 wl conns ip k).restartScheduled = false ∧
    (∀ st : IPAccessControl, aclCheck st localhostIP = true) := by
  refine ⟨?_, ?_, ?_⟩
  · simp [on_stream_accepted, hwl, hip]
  · simp [on_stream_accepted, hwl, hip]
  · intro st
    simp [aclCheck]

/-- Witness for `c10_whitelist_no_loopback_exemption`: a loopback peer is
dropped when the whitelist holds only another address, while the
request-level check would have accepted loopback. -/
theorem c10_witness :
    ([5] : List Nat) ≠ [] ∧ localhostIP ∉ ([5] : List Nat) ∧
    ((on_stream_accepted 0 [5] [] localhostIP 7).connections = [] ∧
     (on_stream_accepted 0 [5] [] localhostIP 7).restartScheduled = false ∧
     (∀ st : IPAccessControl, aclCheck st localhostIP = true)) :=
  ⟨by decide, by decide,
   c10_whitelist_no_loopback_exemption [5] [] localhostIP 7 (by decide) (by decide)⟩

/-- The cols scanning loop keeps the recognized characters in order up to
the capacity: filterMap-then-take. -/
theorem parseColsChars_eq : ∀ (cs : List Char) (room : Nat),
    parseColsChars cs room = (cs.filterMap charToCol).take room
  | [], room => by simp [parseColsChars]
  | _ :: _, 0 => by simp [parseColsChars]
  | c :: rest, room + 1 => by
      cases hc : charToCol c with
      | none =>
          simp [parseColsChars, hc, List.filterMap_cons,
            parseColsChars_eq rest (room + 1)]
      | some v =>
          cases room with
          | zero => simp [parseColsChars, hc, List.filterMap_cons]
          | succ m =>
              simp [parseColsChars, hc, List.filterMap_cons,
                parseColsChars_eq rest (m + 1)]

/-- A recognized character's column kind is absolute exactly when the
character is an uppercase letter. -/
theorem charToCol_case (c : Char) (v : TotalsCol) (h : charToCol c = some v) :
    isAbsCol v = true ↔ c.isUpper = true := by
  have hmem : ∃ p ∈ recognizedCols, p.1 = c ∧ p.2 = v := by
    unfold charToCol at h
    cases hf : recognizedCols.find? (fun p => p.1 = c) with
    | none => rw [hf] at h; simp at h
    | some p =>
        rw [hf] at h
        simp at h
        have h1 := List.find?_some hf
        have h2 := List.mem_of_find?_eq_some hf
        exact ⟨p, h2, by simpa using h1, h⟩
  obtain ⟨p, hp, h1, h2⟩ := hmem
  have hall : ∀ p ∈ recognizedCols, (isAbsCol p.2 = true ↔ p.1.isUpper = true) := by
    decide
  rw [← h1, ← h2]
  exact hall p hp

/-- C6: the hdrs column selector maps each recognized character to its fixed
column kind (uppercase = absolute, lowercase = relative), silently skips
unrecognized characters, truncates at the hard cap (filterMap-then-take),
falls back to the fixed default list when `cols` is absent, and in
particular resolves `cols=HTdk` to hash(abs), time(abs), difficulty(rel),
kernels(rel) in that order. -/
theorem c6_cols_parsing (args : List (String × String)) (s : String) (c : Char)
    (v : TotalsCol) :
    parseColsChars s.toList colCap = (s.toList.filterMap charToCol).take colCap ∧
    (lookupArg args "cols" = none → hdrsCols args = defaultCols) ∧
    hdrsCols [("cols", "HTdk")] =
      [TotalsCol.Hash_Abs, TotalsCol.Time_Abs, TotalsCol.Difficulty_Rel,
       TotalsCol.Kernels_Rel] ∧
    (charToCol c = some v → (isAbsCol v = true ↔ c.isUpper = true)) := by
  refine ⟨parseColsChars_eq s.toList colCap, ?_, by decide, charToCol_case c v⟩
  intro h
  simp [hdrsCols, h]

/-- Witness for `c6_cols_parsing`: absent `cols` argument and the lowercase
selector 'd'. -/
theorem c6_witness :
    lookupArg [] "cols" = none ∧
    hdrsCols [] = defaultCols ∧
    charToCol 'd' = some TotalsCol.Difficulty_Rel ∧
    (isAbsCol TotalsCol.Difficulty_Rel = true ↔ Char.isUpper 'd' = true) :=
  ⟨by decide,
   (c6_cols_parsing [] "" 'd' TotalsCol.Difficulty_Rel).2.1 (by decide),
   by decide,
   (c6_cols_parsing [] "" 'd' TotalsCol.Difficulty_Rel).2.2.2 (by decide)⟩

/-- An even-length text decodes as hex bytes exactly when every character
is a hex digit. -/
theorem scanHexBytes_isSome : ∀ (l : List Char), l.length % 2 = 0 →
    ((scanHexBytes l).isSome = true ↔ ∀ c ∈ l, (hexVal c).isSome = true)
  | [], _ => by simp [scanHexBytes]
  | [c], h => by simp at h
  | c1 :: c2 :: rest, h => by
      have hr : rest.length % 2 = 0 := by simp [List.length_cons] at h ⊢; omega
      have ih := scanHexBytes_isSome rest hr
      cases h1 : hexVal c1 with
      | none =>
          simp only [scanHexBytes, h1, Option.isSome_none]
          constructor
          · intro hF; simp at hF
          · intro hAll
            have := hAll c1 (by simp)
            rw [h1] at this
            simp at this
      | some a =>
          cases h2 : hexVal c2 with
          | none =>
              simp only [scanHexBytes, h1, h2]
              constructor
              · intro hF; simp at hF
              · intro hAll
                have := hAll c2 (by simp)
                rw [h2] at this
                simp at this
          | some b =>
              cases hs : scanHexBytes rest with
              | none =>
                  simp only [scanHexBytes, h1, h2, hs]
                  constructor
                  · intro hF; simp at hF
                  · intro hAll
                    have : (scanHexBytes rest).isSome = true := by
                      rw [ih]
                      intro c hc
                      exact hAll c (by simp [hc])
                    rw [hs] at this
                    simp at this
              | some bsr =>
                  simp only [scanHexBytes, h1, h2, hs]
                  constructor
                  · intro _
                    intro c hc
                    rcases List.mem_cons.mp hc with h | hc
                    · rw [h, h1]; rfl
                    rcases List.mem_cons.mp hc with h | hc
                    · rw [h, h2]; rfl
                    · have : (scanHexBytes rest).isSome = true := by rw [hs]; rfl
                      exact (ih.mp this) c hc
                  · intro _; rfl

/-- Decoding a single encoded hex digit recovers the value. -/
theorem hexVal_hexDigit (k : Nat) (hk : k < 16) : hexVal (hexDigit k) = some k := by
  have hfin : ∀ k : Fin 16, hexVal (hexDigit k.val) = some k.val := by decide
  exact hfin ⟨k, hk⟩

/-- Decoding the hex encoding of a byte list recovers the bytes. -/
theorem scanHexBytes_encode : ∀ (bs : List Nat), (∀ b ∈ bs, b < 256) →
    scanHexBytes (hexEncodeChars bs) = some bs
  | [], _ => rfl
  | b :: rest, h => by
      have hb : b < 256 := h b (by simp)
      have h1 : hexVal (hexDigit (b / 16)) = some (b / 16) :=
        hexVal_hexDigit _ (by omega)
      have h2 : hexVal (hexDigit (b % 16)) = some (b % 16) :=
        hexVal_hexDigit _ (by omega)
      have ih := scanHexBytes_encode rest (fun x hx => h x (by simp [hx]))
      have hbval : b / 16 * 16 + b % 16 = b := by omega
      simp [hexEncodeChars, scanHexBytes, h1, h2, ih, hbval]

/-- The hex encoding of N bytes has 2N characters. -/
theorem hexEncodeChars_length : ∀ (bs : List Nat),
    (hexEncodeChars bs).length = 2 * bs.length
  | [] => rfl
  | _ :: rest => by
      simp [hexEncodeChars, hexEncodeChars_length rest]
      omega

/-- C7: the fixed-length hex accessor succeeds exactly when the argument is
present, its text length equals 2*n, and every character is a hex digit;
and encoding n raw bytes as 2n hex characters and parsing them back yields
exactly the original bytes. -/
theorem c7_hex_roundtrip (args : List (String × String)) (name : String) (n : Nat)
    (bs : List Nat) :
    ((get_UrlHexArg args name n).isSome = true ↔
      ∃ v, lookupArg args name = some v ∧ v.length = 2 * n ∧
        ∀ c ∈ v.toList, (hexVal c).isSome = true) ∧
    ((∀ b ∈ bs, b < 256) →
      get_UrlHexArg [(name, hexEncode bs)] name bs.length = some bs) := by
  constructor
  · cases hl : lookupArg args name with
    | none => simp [get_UrlHexArg, hl]
    | some val =>
        by_cases hlen : val.length = 2 * n
        · have heven : val.toList.length % 2 = 0 := by
            have : val.toList.length = val.length := rfl
            omega
          simp [get_UrlHexArg, hl, hlen]
          exact scanHexBytes_isSome val.data heven
        · simp [get_UrlHexArg, hl, hlen]
  · intro hbs
    have hlook : lookupArg [(name, hexEncode bs)] name = some (hexEncode bs) := by
      simp [lookupArg]
    have hlen : (hexEncode bs).length = 2 * bs.length := by
      have : (hexEncode bs).length = (hexEncodeChars bs).length := rfl
      rw [this, hexEncodeChars_length]
    have hto : (hexEncode bs).toList = hexEncodeChars bs := rfl
    simp [get_UrlHexArg, hlook, hlen, hto]
    exact scanHexBytes_encode bs hbs

/-- Witness for `c7_hex_roundtrip`: the two bytes 0xAB 0xCD encode to
"abcd" and parse back. -/
theorem c7_witness :
    (∀ b ∈ ([171, 205] : List Nat), b < 256) ∧
    get_UrlHexArg [("id", hexEncode [171, 205])] "id" ([171, 205] : List Nat).length =
      some [171, 205] :=
  ⟨by decide, (c7_hex_roundtrip [] "id" 0 [171, 205]).2 (by decide)⟩

/-- No occurrence: the scan finds nothing. -/
theorem findIdxOpt_not_mem (sep : Char) : ∀ (l : List Char), sep ∉ l →
    findIdxOpt sep l = none
  | [], _ => rfl
  | c :: rest, h => by
      have hc : ¬ c = sep := by
        intro hx
        exact h (by simp [hx])
      have hr : sep ∉ rest := fun hx => h (by simp [hx])
      simp [findIdxOpt, hc, findIdxOpt_not_mem sep rest hr]

/-- First occurrence after a clean prefix. -/
theorem findIdxOpt_append (sep : Char) : ∀ (a b : List Char), sep ∉ a →
    findIdxOpt sep (a ++ sep :: b) = some a.length
  | [], b, _ => by simp [findIdxOpt]
  | c :: rest, b, h => by
      have hc : ¬ c = sep := by
        intro hx
        exact h (by simp [hx])
      have hr : sep ∉ rest := fun hx => h (by simp [hx])
      simp [findIdxOpt, hc, findIdxOpt_append sep rest b hr]

/-- `splitSeg` when the separator does not occur: the whole remainder, no
separator found. -/
theorem splitSeg_none (sep : Char) (l : List Char) (h : sep ∉ l) :
    splitSeg sep l = (l, [], false) := by
  simp [splitSeg, findIdxOpt_not_mem sep l h]

/-- Taking one past a clean prefix keeps the prefix and the separator. -/
theorem take_append_sep (sep : Char) : ∀ (a b : List Char),
    (a ++ sep :: b).take (a.length + 1) = a ++ [sep]
  | [], b => by simp
  | c :: rest, b => by
      simp [List.take_succ_cons, take_append_sep sep rest b]

/-- Dropping one past a clean prefix leaves the tail. -/
theorem drop_append_sep (sep : Char) : ∀ (a b : List Char),
    (a ++ sep :: b).drop (a.length + 1) = b
  | [], b => by simp
  | c :: rest, b => by
      simp [List.drop_succ_cons, drop_append_sep sep rest b]

/-- `splitSeg` at the first separator: segment with its separator attached,
the remainder, and the found flag. -/
theorem splitSeg_found (sep : Char) (a b : List Char) (h : sep ∉ a) :
    splitSeg sep (a ++ sep :: b) = (a ++ [sep], b, true) := by
  simp [splitSeg, findIdxOpt_append sep a b h, take_append_sep, drop_append_sep]

/-- The key-prefix test (strncmp over the whole remaining URL) only sees the
current segment when the key cannot contain the separator: matching against
`a ++ sep :: r` is matching against `a`. -/
theorem keyMatch_append (sep : Char) : ∀ (key a r : List Char), sep ∉ key →
    keyMatch key (a ++ sep :: r) = keyMatch key a
  | [], a, r, _ => by simp [keyMatch]
  | k :: ks, [], r, h => by
      have hk : ¬ k = sep := by
        intro hx
        exact h (by simp [hx])
      simp [keyMatch, List.length_cons, List.take_succ_cons]
      exact fun hx => absurd hx hk
  | k :: ks, b :: bs, r, h => by
      have hr : sep ∉ ks := fun hx => h (by simp [hx])
      have ih := keyMatch_append sep ks bs r hr
      simp only [keyMatch, List.cons_append, List.length_cons,
        List.take_succ_cons] at ih ⊢
      rw [show ((k :: ks : List Char) == b :: (bs ++ sep :: r).take ks.length) =
            ((k == b) && (ks == (bs ++ sep :: r).take ks.length)) from rfl,
          show ((k :: ks : List Char) == b :: bs.take ks.length) =
            ((k == b) && (ks == bs.take ks.length)) from rfl, ih]

/-- After the path segment, the scanning loop on a query string decomposed
into `&`-free segments computes `specLoop`. -/
theorem substLoop_joinAmp (key : List Char) (hk : '&' ∉ key) :
    ∀ (args : List (List Char)), (∀ a ∈ args, '&' ∉ a) →
    ∀ (iArg nArgs : Nat) (hasSep : Bool), 1 ≤ iArg →
    substLoop key (joinAmp args) iArg nArgs hasSep = specLoop key args nArgs hasSep
  | [], _, iArg, nArgs, hasSep, _ => by
      simp [joinAmp, substLoop, specLoop]
  | [a], hmem, iArg, nArgs, hasSep, hi => by
      by_cases ha : a = []
      · subst ha
        simp [joinAmp, substLoop, specLoop]
      · have hsep : '&' ∉ a := hmem a (by simp)
        have hne : ¬ iArg = 0 := by omega
        rw [joinAmp]
        rw [substLoop]
        simp only [ha, dif_neg, hne, if_false, splitSeg_none '&' a hsep]
        by_cases hkm : keyMatch key a = true
        · simp [hkm, substLoop, specLoop, ha]
        · have hkm2 : keyMatch key a = false := by
            cases hx : keyMatch key a
            · rfl
            · exact absurd hx hkm
          simp [hkm2, substLoop, specLoop, ha]
  | a :: b :: t, hmem, iArg, nArgs, hasSep, hi => by
      have hsep : '&' ∉ a := hmem a (by simp)
      have hmem2 : ∀ x ∈ b :: t, '&' ∉ x := fun x hx => hmem x (by simp [hx])
      have hne : ¬ iArg = 0 := by omega
      have hjoin : joinAmp (a :: b :: t) = a ++ '&' :: joinAmp (b :: t) := by
        simp [joinAmp]
      have hnil : a ++ '&' :: joinAmp (b :: t) ≠ [] := by simp
      rw [hjoin, substLoop]
      simp only [hnil, dif_neg, hne, if_false, splitSeg_found '&' a _ hsep,
        keyMatch_append '&' key a _ hk]
      have ih := substLoop_joinAmp key hk (b :: t) hmem2
      by_cases hkm : keyMatch key a = true
      · simp only [hkm, if_true]
        rw [ih (iArg + 1) nArgs hasSep (by omega)]
        rw [specLoop]
        simp [hkm]
      · have hkm2 : keyMatch key a = false := by
          cases hx : keyMatch key a
          · rfl
          · exact absurd hx hkm
        simp only [hkm2, if_false]
        rw [ih (iArg + 1) (nArgs + 1) true (by omega)]
        rw [specLoop]
        simp [hkm2]

/-- The first loop iteration consumes the path segment (up to and including
`?`) and copies it when it does not start with `key=`. -/
theorem substLoop_first (key path rest' : List Char) (n : Nat) (hasSep : Bool)
    (hq : '?' ∉ path) (hkq : '?' ∉ key) (hnm : keyMatch key path = false) :
    substLoop key (path ++ '?' :: rest') 0 n hasSep =
      ((path ++ ['?']) ++ (substLoop key rest' 1 (n + 1) true).1,
       (substLoop key rest' 1 (n + 1) true).2) := by
  have hnil : path ++ '?' :: rest' ≠ [] := by simp
  rw [substLoop]
  simp [hnil, splitSeg_found '?' path rest' hq,
    keyMatch_append '?' key path rest' hkq, hnm]

/-- `specLoop` never decreases the copied-segment count. -/
theorem specLoop_nArgs_ge (key : List Char) : ∀ (args : List (List Char)) (n : Nat)
    (hasSep : Bool), n ≤ (specLoop key args n hasSep).2.1
  | [], n, hasSep => le_refl n
  | [a], n, hasSep => by
      by_cases ha : a = []
      · simp [specLoop, ha]
      · by_cases hkm : keyMatch key a = true
        · simp [specLoop, ha, hkm]
        · have hkm2 : keyMatch key a = false := by
            cases hx : keyMatch key a
            · rfl
            · exact absurd hx hkm
          simp [specLoop, ha, hkm2]
  | a :: b :: t, n, hasSep => by
      have ih1 := specLoop_nArgs_ge key (b :: t) n hasSep
      have ih2 := specLoop_nArgs_ge key (b :: t) (n + 1) true
      by_cases hkm : keyMatch key a = true
      · simpa [specLoop, hkm] using ih1
      · have hkm2 : keyMatch key a = false := by
          cases hx : keyMatch key a
          · rfl
          · exact absurd hx hkm
        simp [specLoop, hkm2]
        omega

/-- `joinAmp` over a nonempty tail. -/
theorem joinAmp_cons (a : List Char) (l : List (List Char)) (h : l ≠ []) :
    joinAmp (a :: l) = a ++ '&' :: joinAmp l := by
  cases l with
  | nil => exact absurd rfl h
  | cons b t => simp [joinAmp]

/-- Reassembling the loop output with the trailing `key=value`: the kept
segments joined with `&`, with `key=value` last. -/
theorem specLoop_assemble (key tail : List Char) : ∀ (args : List (List Char))
    (n : Nat), (∀ a ∈ args, a ≠ []) →
    (specLoop key args n true).1 ++
      (if (specLoop key args n true).2.2 then []
       else [if (specLoop key args n true).2.1 ≠ 0 then '&' else '?']) ++ tail =
    joinAmp (args.filter (fun a => !(keyMatch key a)) ++ [tail])
  | [], n, _ => by simp [specLoop, joinAmp]
  | [a], n, hne => by
      have ha : a ≠ [] := hne a (by simp)
      by_cases hkm : keyMatch key a = true
      · simp [specLoop, ha, hkm, joinAmp]
      · have hkm2 : keyMatch key a = false := by
          cases hx : keyMatch key a
          · rfl
          · exact absurd hx hkm
        have hn1 : (n + 1 : Nat) ≠ 0 := by omega
        simp [specLoop, ha, hkm2, hn1, joinAmp]
  | a :: b :: t, n, hne => by
      have hne2 : ∀ x ∈ b :: t, x ≠ [] := fun x hx => hne x (by simp [hx])
      by_cases hkm : keyMatch key a = true
      · have ih := specLoop_assemble key tail (b :: t) n hne2
        have hfil : List.filter (fun x => !(keyMatch key x)) (a :: b :: t) =
            List.filter (fun x => !(keyMatch key x)) (b :: t) := by
          simp [List.filter_cons, hkm]
        rw [hfil]
        have hsl : specLoop key (a :: b :: t) n true =
            specLoop key (b :: t) n true := by
          rw [specLoop, if_pos hkm]
        rw [hsl]
        exact ih
      · have hkm2 : keyMatch key a = false := by
          cases hx : keyMatch key a
          · rfl
          · exact absurd hx hkm
        have ih := specLoop_assemble key tail (b :: t) (n + 1) hne2
        have hfil : List.filter (fun x => !(keyMatch key x)) (a :: b :: t) =
            a :: List.filter (fun x => !(keyMatch key x)) (b :: t) := by
          simp [List.filter_cons, hkm2]
        rw [hfil]
        have hsl : specLoop key (a :: b :: t) n true =
            (a ++ '&' :: (specLoop key (b :: t) (n + 1) true).1,
             (specLoop key (b :: t) (n + 1) true).2) := by
          rw [specLoop, if_neg hkm]
        rw [hsl]
        rw [List.cons_append, joinAmp_cons a _ (by simp)]
        rw [← ih]
        simp

/-- Full characterization of `SubstituteArg` on a well-formed URL with a
query string: every `key=`-matching segment is removed, every other
argument is kept in order with its separators, and `key=value` is appended
at the end. -/
theorem substituteArg_query_chars (path key val : List Char) (args : List (List Char))
    (hqp : '?' ∉ path) (hqk : '?' ∉ key ++ ['=']) (hak : '&' ∉ key ++ ['='])
    (hnm : keyMatch (key ++ ['=']) path = false)
    (hmem : ∀ a ∈ args, '&' ∉ a) (hne : ∀ a ∈ args, a ≠ []) :
    SubstituteArg (String.mk (path ++ '?' :: joinAmp args)) (String.mk key)
      (String.mk val) =
    String.mk (path ++ '?' :: joinAmp
      (args.filter (fun a => !(keyMatch (key ++ ['=']) a)) ++
        [(key ++ ['=']) ++ val])) := by
  show String.mk
      ((substLoop (key ++ ['=']) (path ++ '?' :: joinAmp args) 0 0 false).1 ++
        (if (substLoop (key ++ ['=']) (path ++ '?' :: joinAmp args) 0 0 false).2.2 then []
         else [if (substLoop (key ++ ['=']) (path ++ '?' :: joinAmp args) 0 0 false).2.1 ≠ 0
               then '&' else '?']) ++
        (key ++ ['=']) ++ val) = _
  rw [substLoop_first (key ++ ['=']) path (joinAmp args) 0 false hqp hqk hnm]
  rw [substLoop_joinAmp (key ++ ['=']) hak args hmem 1 (0 + 1) true (by omega)]
  refine congrArg String.mk ?_
  have hassemble := specLoop_assemble (key ++ ['=']) ((key ++ ['=']) ++ val) args
    (0 + 1) hne
  simp only [List.append_assoc] at hassemble ⊢
  simpa using hassemble

/-- `SubstituteArg` on a URL with no query string at all: the pair is
appended after `'&'` (not `'?'`), because the path segment itself counts
into `nArgs`. -/
theorem substituteArg_noquery_chars (path key val : List Char)
    (hqp : '?' ∉ path) (hp : path ≠ [])
    (hnm : keyMatch (key ++ ['=']) path = false) :
    SubstituteArg (String.mk path) (String.mk key) (String.mk val) =
      String.mk (path ++ '&' :: ((key ++ ['=']) ++ val)) := by
  show String.mk
      ((substLoop (key ++ ['=']) path 0 0 false).1 ++
        (if (substLoop (key ++ ['=']) path 0 0 false).2.2 then []
         else [if (substLoop (key ++ ['=']) path 0 0 false).2.1 ≠ 0
               then '&' else '?']) ++
        (key ++ ['=']) ++ val) = _
  have hstep : substLoop (key ++ ['=']) path 0 0 false =
      (path ++ (substLoop (key ++ ['=']) [] 1 1 false).1,
       (substLoop (key ++ ['=']) [] 1 1 false).2) := by
    rw [substLoop]
    have hsplit : splitSeg '?' path = (path, [], false) := splitSeg_none '?' path hqp
    simp [hp, hsplit, hnm]
  have hdone : substLoop (key ++ ['=']) [] 1 1 false = ([], 1, false) := by
    rw [substLoop]
    simp
  rw [hstep, hdone]
  refine congrArg String.mk ?_
  simp

/-- C5 counterexample: substituting `a=9` into `p?a=1&b=2` yields
`p?b=2&a=9` — the matched occurrence is moved to the end of the query
string, not replaced in place (`p?a=9&b=2`). -/
theorem c5_counterexample :
    SubstituteArg "p?a=1&b=2" "a" "9" = "p?b=2&a=9" ∧
    ("p?b=2&a=9" : String) ≠ "p?a=9&b=2" := by
  constructor
  · have h := substituteArg_query_chars ['p'] ['a'] ['9']
      [['a', '=', '1'], ['b', '=', '2']] (by decide) (by decide) (by decide)
      (by decide) (by decide) (by decide)
    exact h
  · decide

/-- C5 (amended): URL-argument substitution scans the query string for
segments starting with `key=`; every matching segment is REMOVED and
`key=value` is APPENDED at the end of the query string (not replaced in
place), with every other key/value pair and separator preserved in order;
when the key is absent the pair is likewise appended — preceded by `&`
both when a query string exists and when the URL is a bare path (`?` would
be used only if nothing at all preceded the pair, because the path segment
itself counts into `nArgs`). -/
theorem c5_amended (path key val : List Char) (args : List (List Char))
    (hqp : '?' ∉ path) (hqk : '?' ∉ key ++ ['=']) (hak : '&' ∉ key ++ ['='])
    (hnm : keyMatch (key ++ ['=']) path = false)
    (hmem : ∀ a ∈ args, '&' ∉ a) (hne : ∀ a ∈ args, a ≠ []) (hp : path ≠ []) :
    SubstituteArg (String.mk (path ++ '?' :: joinAmp args)) (String.mk key)
        (String.mk val) =
      String.mk (path ++ '?' :: joinAmp
        (args.filter (fun a => !(keyMatch (key ++ ['=']) a)) ++
          [(key ++ ['=']) ++ val])) ∧
    SubstituteArg (String.mk path) (String.mk key) (String.mk val) =
      String.mk (path ++ '&' :: ((key ++ ['=']) ++ val)) :=
  ⟨substituteArg_query_chars path key val args hqp hqk hak hnm hmem hne,
   substituteArg_noquery_chars path key val hqp hp hnm⟩

/-- Witness for `c5_amended`: keeping `b=2`, moving `a=...` to the end, and
the bare-path case appending with `&`. -/
theorem c5_witness :
    ('?' ∉ (['p'] : List Char)) ∧
    SubstituteArg "p?a=1&b=2" "a" "9" = "p?b=2&a=9" ∧
    SubstituteArg "p" "a" "9" = "p&a=9" :=
  ⟨by decide,
   (c5_amended ['p'] ['a'] ['9'] [['a', '=', '1'], ['b', '=', '2']] (by decide)
     (by decide) (by decide) (by decide) (by decide) (by decide) (by decide)).1,
   (c5_amended ['p'] ['a'] ['9'] [['a', '=', '1'], ['b', '=', '2']] (by decide)
     (by decide) (by decide) (by decide) (by decide) (by decide) (by decide)).2⟩
